import Mathlib

/-!
Verification of `datumaro/components/explorer.py` (binary-hash similarity
index).  The Python source is embedded shallowly:

* a `HashKey` annotation carries `hash_key : Option (List Nat)` — the packed
  byte vector, or `none` for the "media.data is None" case in which
  `np.unpackbits` raises and the construction loop silently skips the row;
* `np.unpackbits` is modelled bit-exactly (most-significant-bit first);
* `calculate_hamming` is `np.count_nonzero(B1 != B2, axis=1)`: per row, the
  count of positions where the unpacked query differs from the row;
* `np.argsort` is modelled as the argsort that orders indices by
  `(value, index)` lexicographically.  NumPy's default kind is an unstable
  introsort, so theorems proved here never rely on the tie order except
  where explicitly discussed;
* Python's `lst[:k]` slice (including negative `k`) is `pySlice`;
* exceptions become an `Except ExplorerError` result;
* the external embedding model (`ExplorerLauncher`) is a parameter
  `infer : DatasetItem → Option (Option (List Nat))`: `none` models the model
  returning a non-`HashKey` value (caught by the `isinstance` check), and
  `some h` a `HashKey` whose `hash_key` field is `h`.
-/

namespace Datumaro

/-- An annotation attached to a dataset item.  `hashKeyAnn h` is a `HashKey`
instance whose `hash_key` field is `h` (`none` when the underlying media had
no data); `otherAnn t` is any non-`HashKey` annotation. -/
inductive Ann where
  | hashKeyAnn (h : Option (List Nat))
  | otherAnn (tag : Nat)
deriving DecidableEq, Repr

/-- `DatasetItem`: an item identity plus its annotations. -/
structure DatasetItem where
  id : Nat
  anns : List Ann
deriving DecidableEq, Repr

/-- `np.unpackbits` on a vector of `uint8`, most-significant-bit first. -/
def unpackbits (bs : List Nat) : List Bool :=
  bs.flatMap (fun b => (List.range 8).map (fun i => b.testBit (7 - i)))

/-- `calculate_hamming(B1, B2) = np.count_nonzero(B1 != B2, axis=1)`:
for every row of `B2`, the number of positions where it differs from `B1`. -/
def calculate_hamming (B1 : List Bool) (B2 : List (List Bool)) : List Nat :=
  B2.map (fun row => ((List.zipWith (fun a b => a != b) B1 row).count true))

/-- The spec's wording of the Hamming distance, for the refinement claim:
"count of differing bit positions between two equal-length binary vectors". -/
def hammingSpec (A B : List Bool) : Nat :=
  ((List.range A.length).filter (fun j => A.getD j false != B.getD j false)).length

theorem zipWith_bne_count (A B : List Bool) (h : A.length = B.length) :
    (List.zipWith (fun a b => a != b) A B).count true = hammingSpec A B := by
  induction A generalizing B with
  | nil =>
    cases B with
    | nil => rfl
    | cons b bs => exact absurd h (by simp)
  | cons a as ih =>
    cases B with
    | nil => exact absurd h (by simp)
    | cons b bs =>
      have hlen : as.length = bs.length := by simpa using h
      have ihs := ih bs hlen
      unfold hammingSpec at ihs ⊢
      rw [← List.countP_eq_length_filter] at ihs ⊢
      simp only [List.zipWith_cons_cons, List.length_cons, List.range_succ_eq_map,
        List.countP_cons, List.count_cons, List.countP_map, List.getD_cons_zero]
      have hcomp :
      ((fun j => (a :: as).getD j false != (b :: bs).getD j false) ∘ Nat.succ)
        = fun j => as.getD j false != bs.getD j false := by
        funext j
        simp [Function.comp, List.getD_cons_succ]
      rw [hcomp]
      by_cases hab : a = b
      · subst hab
        simp [ihs]
      · have : (a != b) = true := by
          simp [bne, hab]
        simp [this, ihs, hab]

theorem hammingSpec_self (A : List Bool) : hammingSpec A A = 0 := by
  unfold hammingSpec
  simp

/-- Order on row indices induced by the distance vector `l`: by distance
first, then by index.  This is the (total) order realised by a stable
argsort; `np.argsort`'s default kind promises only the distance part. -/
def argsortRel (l : List Nat) (i j : Nat) : Prop :=
  l.getD i 0 < l.getD j 0 ∨ (l.getD i 0 = l.getD j 0 ∧ i ≤ j)

instance argsortRelDecidable (l : List Nat) : DecidableRel (argsortRel l) := fun i j => by
  unfold argsortRel
  infer_instance

instance argsortRelTotal (l : List Nat) : IsTotal Nat (argsortRel l) := by
  constructor
  intro i j
  unfold argsortRel
  rcases Nat.lt_trichotomy (l.getD i 0) (l.getD j 0) with h | h | h
  · exact Or.inl (Or.inl h)
  · rcases Nat.le_total i j with hij | hij
    · exact Or.inl (Or.inr ⟨h, hij⟩)
    · exact Or.inr (Or.inr ⟨h.symm, hij⟩)
  · exact Or.inr (Or.inl h)

instance argsortRelTrans (l : List Nat) : IsTrans Nat (argsortRel l) := by
  constructor
  intro a b c hab hbc
  unfold argsortRel at hab hbc ⊢
  rcases hab with h1 | ⟨h1, h1i⟩ <;> rcases hbc with h2 | ⟨h2, h2i⟩
  · exact Or.inl (h1.trans h2)
  · exact Or.inl (h2 ▸ h1)
  · exact Or.inl (h1 ▸ h2)
  · exact Or.inr ⟨h1.trans h2, h1i.trans h2i⟩

/-- `np.argsort(l)`: a permutation of `0, …, l.length - 1` ordering the
entries of `l` ascendingly.  Ties are modelled index-ascending. -/
def argsort (l : List Nat) : List Nat :=
  List.insertionSort (argsortRel l) (List.range l.length)

theorem argsort_perm (l : List Nat) : List.Perm (argsort l) (List.range l.length) :=
  List.perm_insertionSort (argsortRel l) (List.range l.length)

theorem length_argsort (l : List Nat) : (argsort l).length = l.length := by
  simpa using (argsort_perm l).length_eq

theorem mem_argsort (l : List Nat) (i : Nat) : i ∈ argsort l ↔ i < l.length := by
  rw [(argsort_perm l).mem_iff, List.mem_range]

theorem sorted_argsort (l : List Nat) : List.Sorted (argsortRel l) (argsort l) :=
  List.sorted_insertionSort (argsortRel l) (List.range l.length)

/-- Errors raised by the explorer, by kind:
* `emptyIndex` — `ValueError("Database should have hash_key")` at construction;
* `stackMismatch` — `np.stack` on fingerprint rows of unequal width;
* `ambiguousHashKey` — `DatumaroError(... It is ambiguous!)` for a query item
  with more than one `HashKey`;
* `missingQueryKey` — `ValueError("Query should have hash_key")` when the
  resolved query key is not a `HashKey` instance;
* `unpackNoneKey` — the uncaught `TypeError` of `np.unpackbits(None)` when the
  resolved query `HashKey` has `hash_key = None`. -/
inductive ExplorerError where
  | emptyIndex
  | stackMismatch
  | ambiguousHashKey
  | missingQueryKey
  | unpackNoneKey
deriving DecidableEq, Repr

/-- The `Ready` state of an `Explorer`: the configured default `topk`, the
stacked matrix `self._database_keys` and the parallel `self._item_list`. -/
structure ExplorerState where
  topkDefault : Int
  databaseKeys : List (List Bool)
  itemList : List DatasetItem
deriving DecidableEq, Repr

/-- `select_uninferenced_dataset`: the items having no `HashKey` annotation. -/
def select_uninferenced_dataset (dataset : List DatasetItem) : List DatasetItem :=
  dataset.filter (fun item => !(item.anns.any (fun a => match a with
    | .hashKeyAnn _ => true
    | .otherAnn _ => false)))

/-- One item's contribution to `(database_keys, item_list)` in the
construction loop: for every `HashKey` annotation, try to unpack its key and
append `(row, item)`; the `except Exception: continue` silently skips a
`hash_key` of `None` (where `np.unpackbits` raises). -/
def itemRows (item : DatasetItem) : List (List Bool × DatasetItem) :=
  item.anns.filterMap (fun a => match a with
    | .hashKeyAnn (some bytes) => some (unpackbits bytes, item)
    | .hashKeyAnn none => none
    | .otherAnn _ => none)

/-- The full construction walk over all datasets (source lines 59–69),
producing the parallel `(database_keys, item_list)` pairs in order. -/
def collectPairs (datasets : List (List DatasetItem)) : List (List Bool × DatasetItem) :=
  (datasets.flatMap id).flatMap itemRows

/-- `Explorer.__init__` after the inference step: walk the datasets, collect
the rows, raise `ValueError` when none were collected (`all(i is None …)` is
true exactly on the empty list, since unreadable keys were skipped), then
`np.stack` the rows (which requires a uniform width). -/
def explorerInit (datasets : List (List DatasetItem)) (tk : Int) :
    Except ExplorerError ExplorerState :=
  match collectPairs datasets with
  | [] => .error .emptyIndex
  | p :: rest =>
    if ((p :: rest).all (fun q => q.1.length == p.1.length)) = true then
      .ok ⟨tk, (p :: rest).map Prod.fst, (p :: rest).map Prod.snd⟩
    else .error .stackMismatch

/-- The `hash_key` fields of the query item's `HashKey` annotations. -/
def queryHashKeys (query : DatasetItem) : List (Option (List Nat)) :=
  query.anns.filterMap (fun a => match a with
    | .hashKeyAnn h => some h
    | .otherAnn _ => none)

/-- `Explorer._get_hash_key_from_item_query` combined with the
`isinstance(query_key, HashKey)` check of `explore_topk`: more than one
`HashKey` on the query is ambiguous; exactly one is returned as-is; with
none, the model is invoked, and a non-`HashKey` result (`infer _ = none`)
raises `ValueError("Query should have hash_key")`. -/
def resolveQueryKey (infer : DatasetItem → Option (Option (List Nat)))
    (query : DatasetItem) : Except ExplorerError (Option (List Nat)) :=
  match queryHashKeys query with
  | [] =>
    match infer query with
    | some hk => .ok hk
    | none => .error .missingQueryKey
  | [k] => .ok k
  | _ :: _ :: _ => .error .ambiguousHashKey

/-- Python's `lst[:k]` for an arbitrary integer `k`. -/
def pySlice {α : Type} (l : List α) (k : Int) : List α :=
  if 0 ≤ k then l.take k.toNat else l.take ((l.length : Int) + k).toNat

/-- `if not topk: topk = self._topk` — Python falsiness: `None` and `0` fall
back to the configured default; any other integer (negative included) is
used as given. -/
def effectiveTopk (E : ExplorerState) (topk : Option Int) : Int :=
  match topk with
  | none => E.topkDefault
  | some k => if k = 0 then E.topkDefault else k

/-- `Explorer.explore_topk` on a `DatasetItem` query, state-passing form:
resolve the default `topk`, resolve the query key, unpack it, compute the
Hamming distances against the matrix, `argsort`, re-index the item list and
slice.  The returned state is the explorer's state after the call. -/
def exploreTopkSt (infer : DatasetItem → Option (Option (List Nat)))
    (E : ExplorerState) (query : DatasetItem) (topk : Option Int) :
    Except ExplorerError (List DatasetItem × ExplorerState) :=
  let k := effectiveTopk E topk
  match resolveQueryKey infer query with
  | .error e => .error e
  | .ok none => .error .unpackNoneKey
  | .ok (some bytes) =>
    let unpacked := unpackbits bytes
    let logits := calculate_hamming unpacked E.databaseKeys
    let ind := argsort logits
    let ranked := ind.map (fun i => E.itemList.getD i ⟨0, []⟩)
    .ok (pySlice ranked k, E)

/-- `Explorer.explore_topk`, result only. -/
def exploreTopk (infer : DatasetItem → Option (Option (List Nat)))
    (E : ExplorerState) (query : DatasetItem) (topk : Option Int) :
    Except ExplorerError (List DatasetItem) :=
  (exploreTopkSt infer E query topk).map Prod.fst

/-- An embedding model that never returns a `HashKey`. -/
def inferNone : DatasetItem → Option (Option (List Nat)) := fun _ => none

/-- An embedding model returning a constant `HashKey`. -/
def inferConst : DatasetItem → Option (Option (List Nat)) := fun _ => some (some [7])

/-- Concrete example item with fingerprint bytes `[0]`. -/
def exItemA : DatasetItem := ⟨0, [.hashKeyAnn (some [0])]⟩

/-- Concrete example item with fingerprint bytes `[3]`. -/
def exItemB : DatasetItem := ⟨1, [.hashKeyAnn (some [3])]⟩

/-- Concrete example query item with fingerprint bytes `[1]`. -/
def exQuery : DatasetItem := ⟨7, [.hashKeyAnn (some [1])]⟩

/-- A two-row ready index over `exItemA`, `exItemB` with default topk 10. -/
def exState : ExplorerState :=
  ⟨10, [unpackbits [0], unpackbits [3]], [exItemA, exItemB]⟩

theorem zipWith_bne_self (v : List Bool) :
    (List.zipWith (fun a b => a != b) v v).count true = 0 := by
  induction v with
  | nil => rfl
  | cons a as ih => simp [List.zipWith_cons_cons, List.count_replicate, ih]

theorem length_calculate_hamming (v : List Bool) (rows : List (List Bool)) :
    (calculate_hamming v rows).length = rows.length := by
  simp [calculate_hamming]

end Datumaro

namespace Datumaro

/-- **C8.** For all pairs of equal-length bit vectors `A` and `B`,
`calculate_hamming A [B]` is the one-element vector holding the number of bit
positions at which `A` and `B` differ (the spec-side count `hammingSpec`),
and `calculate_hamming A [A]` is `[0]`.  Distances are `Nat`-valued, hence
non-negative by type. -/
theorem hamming_correct (A B : List Bool) (h : A.length = B.length) :
    calculate_hamming A [B] = [hammingSpec A B] ∧ calculate_hamming A [A] = [0] := by
  constructor
  · simp [calculate_hamming, zipWith_bne_count A B h]
  · simp [calculate_hamming, List.count_replicate]

/-- Witness for C8 at `A = [true, false, true]`, `B = [false, false, true]`. -/
theorem hamming_correct_witness :
    [true, false, true].length = [false, false, true].length ∧
    (calculate_hamming [true, false, true] [[false, false, true]]
        = [hammingSpec [true, false, true] [false, false, true]] ∧
      calculate_hamming [true, false, true] [[true, false, true]] = [0]) :=
  ⟨rfl, hamming_correct [true, false, true] [false, false, true] rfl⟩

/-- **C1, counterexample.**  Constructing the index over a collection whose
single item carries two `HashKey` annotations raises no error at all: the
item is simply indexed once per annotation (contrast the claim, which says an
`AmbiguousFingerprintError`-kind error is raised during construction). -/
theorem ambiguity_construction_cex :
    explorerInit [[⟨0, [.hashKeyAnn (some [0]), .hashKeyAnn (some [3])]⟩]] 10
      = .ok ⟨10, [unpackbits [0], unpackbits [3]],
          [⟨0, [.hashKeyAnn (some [0]), .hashKeyAnn (some [3])]⟩,
           ⟨0, [.hashKeyAnn (some [0]), .hashKeyAnn (some [3])]⟩]⟩ := rfl

/-- **C1, amended.**  The ambiguity error is raised only on the query path:
`explore_topk` on a query item carrying two or more `HashKey` annotations
fails with the `DatumaroError(… It is ambiguous!)` kind, while
`Explorer.__init__` can never produce that error (its only failures are the
empty-database `ValueError` and the `np.stack` shape mismatch). -/
theorem ambiguity_query_only (infer : DatasetItem → Option (Option (List Nat)))
    (E : ExplorerState) (q : DatasetItem) (k : Option Int)
    (dss : List (List DatasetItem)) (tk : Int)
    (h : 2 ≤ (queryHashKeys q).length) :
    exploreTopk infer E q k = .error .ambiguousHashKey ∧
    explorerInit dss tk ≠ .error .ambiguousHashKey := by
  constructor
  · rcases hq : queryHashKeys q with _ | ⟨a, _ | ⟨b, t⟩⟩
    · rw [hq] at h; simp at h
    · rw [hq] at h; simp at h
    · simp [exploreTopk, exploreTopkSt, resolveQueryKey, hq, Except.map]
  · unfold explorerInit
    cases collectPairs dss with
    | nil => simp
    | cons p rest =>
      by_cases hall : ((p :: rest).all (fun q => q.1.length == p.1.length)) = true
      · simp [hall]
      · simp [hall]

/-- Witness for C1 (amended) at a concrete two-key query and the concrete
one-item dataset of the counterexample input shape. -/
theorem ambiguity_query_only_witness :
    2 ≤ (queryHashKeys ⟨3, [.hashKeyAnn (some [0]), .hashKeyAnn (some [3])]⟩).length ∧
    (exploreTopk inferNone exState ⟨3, [.hashKeyAnn (some [0]), .hashKeyAnn (some [3])]⟩
        (some 1) = .error .ambiguousHashKey ∧
      explorerInit [[exItemA, exItemB]] 10 ≠ .error .ambiguousHashKey) :=
  ⟨by decide,
    ambiguity_query_only inferNone exState ⟨3, [.hashKeyAnn (some [0]), .hashKeyAnn (some [3])]⟩
      (some 1) [[exItemA, exItemB]] 10 (by decide)⟩

/-- **C3, counterexample.**  On the two-item index `exState`, an explicit
`k = 0` does not return an empty result: Python's `if not topk` treats `0` as
falsy, so the call falls back to the configured default (10) and returns both
items (query bytes `[0]`, distances 0 and 2 — no tie). -/
theorem topk_zero_cex :
    exploreTopk inferNone exState ⟨7, [.hashKeyAnn (some [0])]⟩ (some 0)
      = .ok [exItemA, exItemB] := rfl

/-- **C3, amended.**  An explicit `k = 0` behaves exactly like an absent `k`
(falls back to the configured default), and a negative `k` is used as a
Python slice bound: the call succeeds and returns the first
`(M + k).toNat` ranked items (all but the last `|k|`), not an empty list. -/
theorem topk_nonpositive (infer : DatasetItem → Option (Option (List Nat)))
    (E : ExplorerState) (q : DatasetItem) (qb : List Nat) (k : Int)
    (hq : queryHashKeys q = [some qb])
    (hneg : k < 0) :
    exploreTopk infer E q (some 0) = exploreTopk infer E q none ∧
    ∃ res, exploreTopk infer E q (some k) = .ok res ∧
      res.length = ((E.databaseKeys.length : Int) + k).toNat := by
  constructor
  · rfl
  · have hk0 : k ≠ 0 := by omega
    refine ⟨pySlice ((argsort (calculate_hamming (unpackbits qb) E.databaseKeys)).map
        (fun i => E.itemList.getD i ⟨0, []⟩)) k, ?_, ?_⟩
    · simp [exploreTopk, exploreTopkSt, resolveQueryKey, hq, effectiveTopk, hk0, Except.map]
    · have hrl : ((argsort (calculate_hamming (unpackbits qb) E.databaseKeys)).map
          (fun i => E.itemList.getD i ⟨0, []⟩)).length = E.databaseKeys.length := by
        simp [length_argsort, length_calculate_hamming]
      have hknn : ¬ (0 ≤ k) := by omega
      simp only [pySlice, hknn, if_false, List.length_take, hrl]
      omega

/-- Witness for C3 (amended) on `exState` with `k = -1`. -/
theorem topk_nonpositive_witness :
    queryHashKeys exQuery = [some [1]] ∧ (-1 : Int) < 0 ∧
    (exploreTopk inferNone exState exQuery (some 0)
        = exploreTopk inferNone exState exQuery none ∧
      ∃ res, exploreTopk inferNone exState exQuery (some (-1)) = .ok res ∧
        res.length = ((exState.databaseKeys.length : Int) + (-1)).toNat) :=
  ⟨rfl, by decide, topk_nonpositive inferNone exState exQuery [1] (-1) rfl (by decide)⟩

/-- **C4.**  Construction raises the empty-database `ValueError` exactly when
the fingerprint-collection walk over all input collections produced zero
rows, and with at least one row (of uniform width, as `np.stack` requires)
it reaches the `Ready` state, whose matrix and item list are the collected
rows and their items. -/
theorem empty_index_iff (datasets : List (List DatasetItem)) (tk : Int)
    (hpad : ∀ p ∈ collectPairs datasets, ∀ q ∈ collectPairs datasets,
      p.1.length = q.1.length) :
    (explorerInit datasets tk = .error .emptyIndex ↔ collectPairs datasets = []) ∧
    (collectPairs datasets ≠ [] →
      explorerInit datasets tk
        = .ok ⟨tk, (collectPairs datasets).map Prod.fst,
            (collectPairs datasets).map Prod.snd⟩) := by
  unfold explorerInit
  cases hc : collectPairs datasets with
  | nil => simp
  | cons p rest =>
    have hall : ((p :: rest).all (fun q => q.1.length == p.1.length)) = true := by
      rw [List.all_eq_true]
      intro q hqmem
      have := hpad q (hc ▸ hqmem) p (hc ▸ List.mem_cons_self p rest)
      simpa using this
    simp [hall]

/-- Witness for C4 on a one-item dataset carrying one usable fingerprint. -/
theorem empty_index_iff_witness :
    (∀ p ∈ collectPairs [[exItemA]], ∀ q ∈ collectPairs [[exItemA]],
      p.1.length = q.1.length) ∧
    ((explorerInit [[exItemA]] 10 = .error .emptyIndex ↔ collectPairs [[exItemA]] = []) ∧
      (collectPairs [[exItemA]] ≠ [] →
        explorerInit [[exItemA]] 10
          = .ok ⟨10, (collectPairs [[exItemA]]).map Prod.fst,
              (collectPairs [[exItemA]]).map Prod.snd⟩)) :=
  ⟨by decide, empty_index_iff [[exItemA]] 10 (by decide)⟩

/-- **C5.**  With a resolvable query (exactly one `HashKey`, key present) and
an explicit `k` strictly greater than the number `M` of indexed rows, the
call succeeds and returns exactly `M` item references (the full ranked
list). -/
theorem topk_clamp (infer : DatasetItem → Option (Option (List Nat)))
    (E : ExplorerState) (q : DatasetItem) (qb : List Nat) (k : Int)
    (hq : queryHashKeys q = [some qb])
    (hk : (E.databaseKeys.length : Int) < k) :
    ∃ res, exploreTopk infer E q (some k) = .ok res ∧
      res.length = E.databaseKeys.length := by
  have hk0 : k ≠ 0 := by omega
  refine ⟨pySlice ((argsort (calculate_hamming (unpackbits qb) E.databaseKeys)).map
      (fun i => E.itemList.getD i ⟨0, []⟩)) k, ?_, ?_⟩
  · simp [exploreTopk, exploreTopkSt, resolveQueryKey, hq, effectiveTopk, hk0, Except.map]
  · have hrl : ((argsort (calculate_hamming (unpackbits qb) E.databaseKeys)).map
        (fun i => E.itemList.getD i ⟨0, []⟩)).length = E.databaseKeys.length := by
      simp [length_argsort, length_calculate_hamming]
    have hknn : 0 ≤ k := by omega
    simp only [pySlice, hknn, if_true, List.length_take, hrl]
    omega

/-- Witness for C5 on the two-row index `exState` with `k = 5`. -/
theorem topk_clamp_witness :
    queryHashKeys exQuery = [some [1]] ∧ ((exState.databaseKeys.length : Int) < 5) ∧
    ∃ res, exploreTopk inferNone exState exQuery (some 5) = .ok res ∧
      res.length = exState.databaseKeys.length :=
  ⟨rfl, by decide, topk_clamp inferNone exState exQuery [1] 5 rfl (by decide)⟩

/-- **C6.**  For a fixed index and a query item that already carries exactly
one `HashKey` annotation, `explore_topk` is a pure function of the index
state, the query and `k`: in particular it does not depend on the embedding
model (the only hidden mutable state on the object), so two calls — even
under different models — return identical ordered results. -/
theorem topk_deterministic (infer1 infer2 : DatasetItem → Option (Option (List Nat)))
    (E : ExplorerState) (q : DatasetItem) (hk : Option (List Nat)) (k : Option Int)
    (hq : queryHashKeys q = [hk]) :
    exploreTopk infer1 E q k = exploreTopk infer2 E q k := by
  simp [exploreTopk, exploreTopkSt, resolveQueryKey, hq]

/-- Witness for C6: two different models, same single-`HashKey` query. -/
theorem topk_deterministic_witness :
    queryHashKeys exQuery = [some [1]] ∧
    exploreTopk inferNone exState exQuery (some 2)
      = exploreTopk inferConst exState exQuery (some 2) :=
  ⟨rfl, topk_deterministic inferNone inferConst exState exQuery (some [1]) (some 2) rfl⟩

/-- **C9.**  `explore_topk` never mutates the explorer: in the state-passing
embedding the state coming out of any call (for every query, every `k`, and
every embedding model) is exactly the state that went in — in particular
`self._database_keys` and `self._item_list` are unchanged.  (The source
method contains no assignment to either field.) -/
theorem explore_frame (infer : DatasetItem → Option (Option (List Nat)))
    (E : ExplorerState) (q : DatasetItem) (k : Option Int) :
    (exploreTopkSt infer E q k).map Prod.snd
      = (exploreTopkSt infer E q k).map (fun _ => E) := by
  rcases hr : resolveQueryKey infer q with e | hk
  · simp [exploreTopkSt, hr, Except.map]
  · cases hk <;> simp [exploreTopkSt, hr, Except.map]

/-- **C7.**  If the unpacked query key is bit-for-bit identical to row `i`
of the matrix and no zero-distance row precedes row `i` in the ranking, then
`explore_topk` with `k ≥ 1` succeeds and its first result is row `i`'s item,
whose Hamming distance to the query is `0`. -/
theorem self_identity (infer : DatasetItem → Option (Option (List Nat)))
    (E : ExplorerState) (q : DatasetItem) (qb : List Nat) (i : Nat) (k : Int)
    (hq : queryHashKeys q = [some qb])
    (hi : i < E.databaseKeys.length)
    (hrow : E.databaseKeys.getD i [] = unpackbits qb)
    (hk : 1 ≤ k)
    (hpre : ∀ j ∈ (argsort (calculate_hamming (unpackbits qb) E.databaseKeys)).takeWhile
        (fun j => j != i),
      (calculate_hamming (unpackbits qb) E.databaseKeys).getD j 0 ≠ 0) :
    ∃ res, exploreTopk infer E q (some k) = .ok res ∧
      res.head? = some (E.itemList.getD i ⟨0, []⟩) ∧
      (calculate_hamming (unpackbits qb) E.databaseKeys).getD i 0 = 0 := by
  set logits := calculate_hamming (unpackbits qb) E.databaseKeys with hlog
  have hlen : logits.length = E.databaseKeys.length := length_calculate_hamming _ _
  have hzero : logits.getD i 0 = 0 := by
    have hstep : logits.getD i 0
        = (List.zipWith (fun a b => a != b) (unpackbits qb)
            (E.databaseKeys.getD i [])).count true := by
      rw [hlog]
      unfold calculate_hamming
      rw [List.getD_eq_getElem?_getD, List.getElem?_map, List.getElem?_eq_getElem hi]
      rw [List.getD_eq_getElem?_getD, List.getElem?_eq_getElem hi]
      rfl
    rw [hstep, hrow]
    exact zipWith_bne_self (unpackbits qb)
  obtain ⟨h0, t, hind⟩ : ∃ h0 t, argsort logits = h0 :: t := by
    cases hargs : argsort logits with
    | nil =>
      exfalso
      have := length_argsort logits
      rw [hargs] at this
      simp at this
      omega
    | cons a l => exact ⟨a, l, rfl⟩
  have hh0 : h0 = i := by
    by_contra hne
    have hmem : i ∈ argsort logits := (mem_argsort logits i).mpr (by omega)
    rw [hind] at hmem
    have hit : i ∈ t := by
      rcases List.mem_cons.mp hmem with h | h
      · exact absurd h.symm hne
      · exact h
    have hsort := sorted_argsort logits
    rw [hind] at hsort
    have hrel : argsortRel logits h0 i := (List.sorted_cons.mp hsort).1 i hit
    have hzeroh : logits.getD h0 0 = 0 := by
      unfold argsortRel at hrel
      rcases hrel with h | ⟨h, _⟩
      · rw [hzero] at h; omega
      · rw [hzero] at h; exact h
    have hbne : (h0 != i) = true := by simp [hne]
    have htw : h0 ∈ (argsort logits).takeWhile (fun j => j != i) := by
      rw [hind, List.takeWhile_cons, hbne]
      exact List.mem_cons_self _ _
    exact hpre h0 htw hzeroh
  have hk0 : k ≠ 0 := by omega
  refine ⟨pySlice ((argsort logits).map (fun j => E.itemList.getD j ⟨0, []⟩)) k,
    ?_, ?_, hzero⟩
  · simp [exploreTopk, exploreTopkSt, resolveQueryKey, hq, effectiveTopk, hk0,
      Except.map, hlog]
  · rw [hind, hh0]
    have h0le : 0 ≤ k := by omega
    obtain ⟨m, hm⟩ : ∃ m, k.toNat = m + 1 := ⟨k.toNat - 1, by omega⟩
    simp [pySlice, h0le, hm]

/-- Witness for C7: `exState` row 0 equals the unpacked query bytes `[0]`,
`k = 1`; the prefix-of-the-ranking hypothesis holds vacuously. -/
theorem self_identity_witness :
    queryHashKeys ⟨7, [.hashKeyAnn (some [0])]⟩ = [some [0]] ∧
    0 < exState.databaseKeys.length ∧
    exState.databaseKeys.getD 0 [] = unpackbits [0] ∧
    ∃ res, exploreTopk inferNone exState ⟨7, [.hashKeyAnn (some [0])]⟩ (some 1) = .ok res ∧
      res.head? = some (exState.itemList.getD 0 ⟨0, []⟩) ∧
      (calculate_hamming (unpackbits [0]) exState.databaseKeys).getD 0 0 = 0 :=
  ⟨rfl, by decide, by decide,
    self_identity inferNone exState ⟨7, [.hashKeyAnn (some [0])]⟩ [0] 0 1 rfl (by decide)
      (by decide) (by decide) (by decide)⟩

/-- **C10.**  An item with `m ≥ 0` unpackable `HashKey` annotations
contributes, in place, exactly `m` `(row, item)` pairs to the construction
walk: the walk over `(xs ++ item :: ys) :: rest` splits around the item's own
block `itemRows item`, that block has length `m` (the count of `HashKey`
annotations whose key is present), and every reference in it is the item
itself — the matrix and item list of a successful construction being the
first and second projections of this pair list. -/
theorem multi_fingerprint_rows (item : DatasetItem) (xs ys : List DatasetItem)
    (rest : List (List DatasetItem)) :
    collectPairs ((xs ++ item :: ys) :: rest)
      = collectPairs [xs] ++ itemRows item ++ collectPairs (ys :: rest) ∧
    (itemRows item).length = item.anns.countP (fun a => match a with
        | .hashKeyAnn (some _) => true
        | .hashKeyAnn none => false
        | .otherAnn _ => false) ∧
    (itemRows item).map Prod.snd = List.replicate (itemRows item).length item := by
  refine ⟨?_, ?_, ?_⟩
  · simp [collectPairs, List.flatMap_append, List.flatMap_cons, List.append_assoc]
  · rw [itemRows, List.length_filterMap_eq_countP]
    congr 1
    funext a
    cases a with
    | hashKeyAnn h => cases h <;> rfl
    | otherAnn t => rfl
  · rw [List.eq_replicate_iff]
    refine ⟨by simp, ?_⟩
    intro b hb
    rw [List.mem_map] at hb
    obtain ⟨p, hp, hpb⟩ := hb
    rw [itemRows, List.mem_filterMap] at hp
    obtain ⟨a, _, hfa⟩ := hp
    cases a with
    | hashKeyAnn h =>
      cases h with
      | none => simp at hfa
      | some bytes =>
        simp only [Option.some.injEq] at hfa
        rw [← hpb, ← hfa]
    | otherAnn t => simp at hfa

end Datumaro
